import Mathlib

/-!
Verification of the Wordle game in `wordle.py` (class `WordleGUI`).

Shallow embedding notes:
* Python strings are modelled as lists of Unicode code points (`PyStr := List Nat`).
  The `str` methods used by the program (`lower`, `upper`, `isalpha`) are modelled
  on the ASCII range, which is the alphabet of the English word list the program
  loads; on that range `pyToLower`, `pyToUpper`, `pyIsAlpha` agree with Python.
* The tile colors written by `_feedback` are renamed to an enumeration `Verdict`:
  the gray fill `"#3a3a3c"` is `Verdict.Absent`, the green fill `"#538d4e"` is
  `Verdict.Correct`, and the yellow fill `"#b59f3b"` is `Verdict.Present`.
* `list.set` models the in-range Python item assignments of `_feedback`
  (every assignment in the program is in range because the grid has
  `GRID_COLS = 5` tiles and validated guesses have length 5).
-/

namespace Wordle

/-- A Python string, modelled as the list of its characters' code points
(each character is a `Nat`). -/
abbrev PyStr := List Nat

/-- Convert a Lean string literal into the `PyStr` model. -/
def toChars (s : String) : PyStr := s.data.map Char.toNat

/-- ASCII model of Python `str.isupper` for one character. -/
def pyIsUpper (c : Nat) : Bool := 65 ≤ c && c ≤ 90

/-- ASCII model of Python `str.islower` for one character. -/
def pyIsLower (c : Nat) : Bool := 97 ≤ c && c ≤ 122

/-- ASCII model of Python `str.isalpha` for one character. -/
def pyIsAlpha (c : Nat) : Bool := pyIsUpper c || pyIsLower c

/-- ASCII model of Python `str.lower` for one character. -/
def pyToLower (c : Nat) : Nat := if pyIsUpper c then c + 32 else c

/-- ASCII model of Python `str.upper` for one character. -/
def pyToUpper (c : Nat) : Nat := if pyIsLower c then c - 32 else c

/-- Python `s.lower()` on a whole string. -/
def strLower (s : PyStr) : PyStr := s.map pyToLower

/-- Python `s.isalpha()` on a whole string: true iff the string is non-empty
and every character is alphabetic. -/
def strIsAlpha (s : PyStr) : Bool := !s.isEmpty && s.all pyIsAlpha

/-- Render a model string for display, uppercased, as Python `s.upper()` does
in the loss message. -/
def pyUpperString (s : PyStr) : String :=
  String.mk (s.map (fun c => Char.ofNat (pyToUpper c)))

/-- `GRID_ROWS` constant of `wordle.py`: the maximum number of attempts. -/
def GRID_ROWS : Nat := 6

/-- `GRID_COLS` constant of `wordle.py`: the word length. -/
def GRID_COLS : Nat := 5

/-- `MIN_ZIPF` constant of `wordle.py`: minimum Zipf frequency of accepted
words.  Python's float `3.0` is modelled as the rational `3`. -/
def MIN_ZIPF : ℚ := 3

/-- Per-tile verdict; stands for the fill color `_feedback` writes:
`Absent` = gray `"#3a3a3c"`, `Correct` = green `"#538d4e"`,
`Present` = yellow `"#b59f3b"`. -/
inductive Verdict : Type
  | Correct
  | Present
  | Absent
deriving DecidableEq, Repr

/-- First loop of `WordleGUI._feedback`:
`for i, ch in enumerate(guess): if ch == self.secret[i]: fb[i] = green;
secret_chars[i] = None`.
`fb` is the verdict list built so far, `sc` the mutable copy `secret_chars`
(`none` standing for Python `None`), `i` the loop index. -/
def pass1 (secret : PyStr) : List Verdict → List (Option Nat) → Nat → PyStr →
    List Verdict × List (Option Nat)
  | fb, sc, _, [] => (fb, sc)
  | fb, sc, i, ch :: rest =>
    if secret[i]? = some ch then
      pass1 secret (fb.set i Verdict.Correct) (sc.set i none) (i + 1) rest
    else
      pass1 secret fb sc (i + 1) rest

/-- Second loop of `WordleGUI._feedback`:
`for i, ch in enumerate(guess): if fb[i] == gray and ch in secret_chars:
fb[i] = yellow; secret_chars[secret_chars.index(ch)] = None`. -/
def pass2 : List Verdict → List (Option Nat) → Nat → PyStr → List Verdict
  | fb, _, _, [] => fb
  | fb, sc, i, ch :: rest =>
    if fb[i]? = some Verdict.Absent ∧ some ch ∈ sc then
      pass2 (fb.set i Verdict.Present) (sc.set (sc.indexOf (some ch)) none) (i + 1) rest
    else
      pass2 fb sc (i + 1) rest

/-- `WordleGUI._feedback(guess)`: verdict list for `guess` against the secret.
`fb = [gray] * GRID_COLS; secret_chars = list(self.secret)`, then the two
loops above. -/
def feedback (secret guess : PyStr) : List Verdict :=
  let init := List.replicate GRID_COLS Verdict.Absent
  let p := pass1 secret init (secret.map some) 0 guess
  pass2 p.1 p.2 0 guess

/-- The number of positions where secret and guess carry the same character
(counted over the common prefix; the words compared have equal length). -/
def matchCount (secret guess : PyStr) : Nat :=
  (List.zipWith (fun a b => if a = b then 1 else 0) secret guess).sum

/-- Rejection message for a guess of the wrong length (`wordle.py` line 121). -/
def wrongLengthMsg : String := "Enter exactly 5 letters"

/-- Rejection message for a non-alphabetic guess (`wordle.py` line 123). -/
def nonAlphabeticMsg : String := "Letters only, please"

/-- Rejection message for a word absent from the word set (`wordle.py` line 126). -/
def unknownWordMsg : String := "Not a valid word"

/-- The validation chain of `WordleGUI._submit_guess` on the already-lowercased
guess: length check, then alphabetic check, then dictionary membership, the
first failing check producing its rejection message.  `none` means the guess
is accepted.  The Python `word_set` is modelled by the list `ws` (only
membership is used, so a list models the set faithfully). -/
def validateGuess (ws : List PyStr) (guess : PyStr) : Option String :=
  if guess.length ≠ GRID_COLS then some wrongLengthMsg
  else if ¬ strIsAlpha guess then some nonAlphabeticMsg
  else if guess ∉ ws then some unknownWordMsg
  else none

/-- Session status.  `InProgress` corresponds to the entry widget being
enabled; `Won` and `Lost` correspond to the terminal messages of
`_after_guess` together with the entry widget being disabled, which is how
the program prevents any further guess submission. -/
inductive Status : Type
  | InProgress
  | Won
  | Lost
deriving DecidableEq, Repr

/-- The session state held by `WordleGUI`: the secret word, `current_row`
(the attempt index), the accepted guesses painted on the grid together with
their verdicts (the GuessRows), the status, and the message label text. -/
structure GameState : Type where
  secret : PyStr
  currentRow : Nat
  rows : List (PyStr × List Verdict)
  status : Status
  message : String
deriving DecidableEq, Repr

/-- Win message of `_after_guess` (line 148). -/
def winMsg (row : Nat) : String := "You won in " ++ toString (row + 1) ++ " tries!"

/-- Loss message of `_after_guess` (line 153). -/
def loseMsg (secret : PyStr) : String := "Out of tries! Word was " ++ pyUpperString secret

/-- One guess submission: `_submit_guess` followed (for an accepted guess,
after the tile animation) by `_after_guess`.  When the status is terminal the
entry widget is disabled, so the Return key cannot fire `_submit_guess` at
all and the submission is a no-op leaving the state untouched.  Otherwise the
raw entry text is lowercased, validated (a rejection only changes the message
label), and an accepted guess paints its verdict row, then `_after_guess`
checks the win before incrementing `current_row` and checking
`current_row >= GRID_ROWS` for the loss. -/
def submitGuess (ws : List PyStr) (st : GameState) (raw : PyStr) : GameState :=
  if st.status = Status.InProgress then
    let guess := strLower raw
    match validateGuess ws guess with
    | some msg => { st with message := msg }
    | none =>
      let fb := feedback st.secret guess
      let rows2 := st.rows ++ [(guess, fb)]
      if guess = st.secret then
        { st with rows := rows2, message := winMsg st.currentRow, status := Status.Won }
      else if GRID_ROWS ≤ st.currentRow + 1 then
        { st with rows := rows2, currentRow := st.currentRow + 1,
                  message := loseMsg st.secret, status := Status.Lost }
      else
        { st with rows := rows2, currentRow := st.currentRow + 1, message := "" }
  else st

/-- Submit a list of guesses in order. -/
def playGuesses (ws : List PyStr) : GameState → List PyStr → GameState
  | st, [] => st
  | st, g :: gs => playGuesses ws (submitGuess ws st g) gs

/-- `WordleGUI._start_game`: pick the secret `random.choice(self.words)` —
modelled as the element at an arbitrary index `i` of the word list — and
reset the session.  (`random.choice` on a non-empty list always returns one
of its elements.) -/
def startGame (words : List PyStr) (i : Nat) : GameState :=
  { secret := words.getD i []
    currentRow := 0
    rows := []
    status := Status.InProgress
    message := "" }

/-- `WordleGUI.load_words`: filter the corpus list (`top_n_list`, external)
to words of length 5, alphabetic, with Zipf frequency at least `MIN_ZIPF`
(`zipf_frequency` is external, modelled as an arbitrary rational-valued
function), and lowercase the survivors.  `word_set` is the set of the
returned list; membership in it equals membership in the list. -/
def load_words (top : List PyStr) (zipf : PyStr → ℚ) : List PyStr :=
  (top.filter (fun w => w.length = 5 && strIsAlpha w && MIN_ZIPF ≤ zipf w)).map strLower

/-- Python `s.strip()` restricted to the space character; used only to state
the spec's claim about trimming (the program itself never trims). -/
def strStrip (s : PyStr) : PyStr :=
  ((s.dropWhile (fun c => c = 32)).reverse.dropWhile (fun c => c = 32)).reverse

/-- A concrete word list for witnesses: seven lowercase 5-letter words. -/
def demoWords : List PyStr :=
  [toChars "apple", toChars "crane", toChars "slate", toChars "brick",
   toChars "gumbo", toChars "pride", toChars "squad"]

/-- A fresh session over `demoWords` whose secret is `"apple"`. -/
def demoStart : GameState := startGame demoWords 0

/-- Six valid non-winning guesses against the secret `"apple"`. -/
def demoSixGuesses : List PyStr :=
  [toChars "crane", toChars "slate", toChars "brick",
   toChars "gumbo", toChars "pride", toChars "squad"]

/-- The session after six non-winning guesses: a reachable `Lost` state. -/
def demoLost : GameState := playGuesses demoWords demoStart demoSixGuesses

/-- The session after five non-winning guesses: in progress on the last row. -/
def demoFive : GameState := playGuesses demoWords demoStart (demoSixGuesses.take 5)

/-- A reachable `Won` state: the secret guessed on the first attempt. -/
def demoWon : GameState := submitGuess demoWords demoStart (toChars "apple")

/-- A concrete corpus for witnesses (one word has uppercase, one is short). -/
def demoTop : List PyStr := [toChars "Apple", toChars "abc", toChars "crane"]

/-- A concrete Zipf-frequency function for witnesses (constant 4). -/
def demoZipf : PyStr → ℚ := fun _ => 4

/-- C1: for secret "ALLOY" and guess "LLAMA" (lowercased for comparison, as
the program stores the secret lowercase and lowercases the guess), the
feedback is [Present, Correct, Present, Absent, Absent]; pass 1 marks only
index 1 Correct and consumes exactly that L from the secret's letter budget
(`secret_chars` becomes the secret with position 1 set to None). -/
theorem feedback_alloy_llama :
    feedback (strLower (toChars "ALLOY")) (strLower (toChars "LLAMA")) =
      [Verdict.Present, Verdict.Correct, Verdict.Present, Verdict.Absent, Verdict.Absent] ∧
    (pass1 (toChars "alloy") (List.replicate GRID_COLS Verdict.Absent)
        ((toChars "alloy").map some) 0 (toChars "llama")).1 =
      [Verdict.Absent, Verdict.Correct, Verdict.Absent, Verdict.Absent, Verdict.Absent] ∧
    (pass1 (toChars "alloy") (List.replicate GRID_COLS Verdict.Absent)
        ((toChars "alloy").map some) 0 (toChars "llama")).2 =
      ((toChars "alloy").map some).set 1 none := by
  decide

theorem pass1_fst_length (secret : PyStr) (g : PyStr) :
    ∀ (fb : List Verdict) (sc : List (Option Nat)) (i : Nat),
      ((pass1 secret fb sc i g).1).length = fb.length := by
  induction g with
  | nil => intro fb sc i; rfl
  | cons ch rest ih =>
    intro fb sc i
    simp only [pass1]
    split
    · rw [ih]; simp
    · exact ih fb sc (i + 1)

theorem pass2_length (g : PyStr) :
    ∀ (fb : List Verdict) (sc : List (Option Nat)) (i : Nat),
      (pass2 fb sc i g).length = fb.length := by
  induction g with
  | nil => intro fb sc i; rfl
  | cons ch rest ih =>
    intro fb sc i
    simp only [pass2]
    split
    · rw [ih]; simp
    · exact ih fb sc (i + 1)

theorem count_correct_set_correct (l : List Verdict) (i : Nat) (hi : i < l.length)
    (h : l[i]? ≠ some Verdict.Correct) :
    (l.set i Verdict.Correct).count Verdict.Correct = l.count Verdict.Correct + 1 := by
  have hget : l[i]? = some (l.get ⟨i, hi⟩) := List.getElem?_eq_getElem hi
  have hne : l.get ⟨i, hi⟩ ≠ Verdict.Correct := by
    intro hh
    exact h (by rw [hget, hh])
  rw [List.count_set _ _ _ _ hi]
  simp only [List.get_eq_getElem] at hne
  simp [hne]

theorem count_correct_set_other (l : List Verdict) (i : Nat) (v : Verdict)
    (hv : v ≠ Verdict.Correct) (h : l[i]? ≠ some Verdict.Correct) :
    (l.set i v).count Verdict.Correct = l.count Verdict.Correct := by
  by_cases hi : i < l.length
  · have hget : l[i]? = some (l.get ⟨i, hi⟩) := List.getElem?_eq_getElem hi
    have hne : l.get ⟨i, hi⟩ ≠ Verdict.Correct := by
      intro hh
      exact h (by rw [hget, hh])
    rw [List.count_set _ _ _ _ hi]
    simp only [List.get_eq_getElem] at hne
    simp [hne, hv]
  · rw [List.set_eq_of_length_le (Nat.le_of_not_lt hi)]

theorem pass1_count (secret : PyStr) (g : PyStr) :
    ∀ (fb : List Verdict) (sc : List (Option Nat)) (i : Nat),
      (∀ j, i ≤ j → fb[j]? ≠ some Verdict.Correct) →
      i + g.length ≤ secret.length →
      i + g.length ≤ fb.length →
      ((pass1 secret fb sc i g).1).count Verdict.Correct
        = fb.count Verdict.Correct + matchCount (secret.drop i) g := by
  induction g with
  | nil =>
    intro fb sc i hfb hs hl
    simp [pass1, matchCount]
  | cons ch rest ih =>
    intro fb sc i hfb hs hl
    have his : i < secret.length := by
      simp only [List.length_cons] at hs
      omega
    have hif : i < fb.length := by
      simp only [List.length_cons] at hl
      omega
    have hdrop : secret.drop i = secret.get ⟨i, his⟩ :: secret.drop (i + 1) :=
      List.drop_eq_getElem_cons his
    have hget : secret[i]? = some (secret.get ⟨i, his⟩) := List.getElem?_eq_getElem his
    simp only [pass1]
    by_cases hc : secret[i]? = some ch
    · rw [if_pos hc]
      have hchar : secret.get ⟨i, his⟩ = ch := by
        rw [hget] at hc
        exact Option.some.inj hc
      rw [ih (fb.set i Verdict.Correct) (sc.set i none) (i + 1) ?hA ?hB ?hC]
      case hA =>
        intro j hj
        rw [List.getElem?_set_ne (by omega)]
        exact hfb j (by omega)
      case hB =>
        simp only [List.length_cons] at hs
        omega
      case hC =>
        simp only [List.length_cons] at hl
        rw [List.length_set]
        omega
      rw [count_correct_set_correct fb i hif (hfb i (Nat.le_refl i))]
      have hm : matchCount (secret.drop i) (ch :: rest)
          = 1 + matchCount (secret.drop (i + 1)) rest := by
        rw [hdrop]
        simp only [matchCount, List.zipWith_cons_cons, List.sum_cons, hchar, if_pos]
      rw [hm]
      omega
    · rw [if_neg hc]
      have hchar : secret.get ⟨i, his⟩ ≠ ch := by
        intro hh
        exact hc (by rw [hget, hh])
      rw [ih fb sc (i + 1) (fun j hj => hfb j (by omega)) ?hB ?hC]
      case hB =>
        simp only [List.length_cons] at hs
        omega
      case hC =>
        simp only [List.length_cons] at hl
        omega
      have hm : matchCount (secret.drop i) (ch :: rest)
          = matchCount (secret.drop (i + 1)) rest := by
        rw [hdrop]
        simp only [matchCount, List.zipWith_cons_cons, List.sum_cons, if_neg hchar]
        simp
      rw [hm]

theorem pass2_count (g : PyStr) :
    ∀ (fb : List Verdict) (sc : List (Option Nat)) (i : Nat),
      (pass2 fb sc i g).count Verdict.Correct = fb.count Verdict.Correct := by
  induction g with
  | nil => intro fb sc i; rfl
  | cons ch rest ih =>
    intro fb sc i
    simp only [pass2]
    split
    · rename_i hcond
      rw [ih]
      refine count_correct_set_other fb i Verdict.Present (by simp) ?_
      rw [hcond.1]
      simp
    · exact ih fb sc (i + 1)

/-- C2 (amended): for secret and guess both of the program's word length
`GRID_COLS = 5`, `_feedback` returns a verdict list of that same length, and
the number of Correct verdicts equals exactly the number of positions where
secret and guess agree. -/
theorem feedback_length_correct_count (secret guess : PyStr)
    (hs : secret.length = GRID_COLS) (hg : guess.length = GRID_COLS) :
    (feedback secret guess).length = GRID_COLS ∧
      (feedback secret guess).count Verdict.Correct = matchCount secret guess := by
  constructor
  · show (pass2 _ _ 0 guess).length = GRID_COLS
    rw [pass2_length, pass1_fst_length, List.length_replicate]
  · show (pass2 _ _ 0 guess).count Verdict.Correct = matchCount secret guess
    rw [pass2_count, pass1_count secret guess _ _ 0 ?hA ?hB ?hC]
    case hA =>
      intro j hj
      rw [List.getElem?_replicate]
      split <;> simp
    case hB =>
      omega
    case hC =>
      rw [List.length_replicate]
      omega
    rw [List.drop_zero]
    simp [List.count_replicate]

/-- C2 witness: the amended claim instantiated at secret "alloy" and guess
"llama". -/
theorem feedback_length_correct_count_witness :
    (feedback (toChars "alloy") (toChars "llama")).length = GRID_COLS ∧
      (feedback (toChars "alloy") (toChars "llama")).count Verdict.Correct =
        matchCount (toChars "alloy") (toChars "llama") :=
  feedback_length_correct_count (toChars "alloy") (toChars "llama") (by decide) (by decide)

/-- C2 counterexample: for the equal-length pair secret = guess = "ab" the
claim fails — `_feedback` starts from a list of `GRID_COLS = 5` grays, so
the returned verdict list has length 5, not the words' length 2. -/
theorem feedback_length_counterexample :
    (toChars "ab").length = (toChars "ab").length ∧
      (feedback (toChars "ab") (toChars "ab")).length ≠ (toChars "ab").length := by
  decide

/-- C3: the validation checks run in the fixed order length, alphabetic,
dictionary membership, and the first failing check picks the reported
message: any guess of the wrong length gets the wrong-length message (even
when also non-alphabetic); a length-5 non-alphabetic guess gets the
letters-only message; a length-5 alphabetic guess outside the word set gets
the unknown-word message. -/
theorem validate_order (ws : List PyStr) (g : PyStr) :
    (g.length ≠ GRID_COLS → validateGuess ws g = some wrongLengthMsg) ∧
      (g.length = GRID_COLS → strIsAlpha g = false →
        validateGuess ws g = some nonAlphabeticMsg) ∧
      (g.length = GRID_COLS → strIsAlpha g = true → g ∉ ws →
        validateGuess ws g = some unknownWordMsg) := by
  refine ⟨fun h => ?_, fun h1 h2 => ?_, fun h1 h2 h3 => ?_⟩
  · simp [validateGuess, h]
  · simp [validateGuess, h1, h2]
  · simp [validateGuess, h1, h2, h3]

/-- C3 witness: "ab!" is both wrong-length and non-alphabetic and reports the
wrong-length message; "zz!zz" has length 5 but is non-alphabetic; "zzzzz" is
a length-5 alphabetic non-word and reports the unknown-word message. -/
theorem validate_order_witness :
    validateGuess demoWords (toChars "ab!") = some wrongLengthMsg ∧
      validateGuess demoWords (toChars "zz!zz") = some nonAlphabeticMsg ∧
      validateGuess demoWords (toChars "zzzzz") = some unknownWordMsg :=
  ⟨(validate_order demoWords (toChars "ab!")).1 (by decide),
   (validate_order demoWords (toChars "zz!zz")).2.1 (by decide) (by decide),
   (validate_order demoWords (toChars "zzzzz")).2.2 (by decide) (by decide) (by decide)⟩

/-- C7: a rejected submission changes no session state — the secret, the
attempt index, the appended rows and the status are untouched — and only the
rejection message is surfaced on the message label. -/
theorem reject_preserves_state (ws : List PyStr) (st : GameState) (raw : PyStr)
    (msg : String) (h1 : st.status = Status.InProgress)
    (h2 : validateGuess ws (strLower raw) = some msg) :
    (submitGuess ws st raw).secret = st.secret ∧
      (submitGuess ws st raw).currentRow = st.currentRow ∧
      (submitGuess ws st raw).rows = st.rows ∧
      (submitGuess ws st raw).status = Status.InProgress ∧
      (submitGuess ws st raw).message = msg := by
  simp [submitGuess, h1, h2]

/-- C7 witness: rejecting "ab!" in a fresh session leaves every session
field unchanged and surfaces the wrong-length message. -/
theorem reject_preserves_state_witness :
    (submitGuess demoWords demoStart (toChars "ab!")).secret = demoStart.secret ∧
      (submitGuess demoWords demoStart (toChars "ab!")).currentRow = demoStart.currentRow ∧
      (submitGuess demoWords demoStart (toChars "ab!")).rows = demoStart.rows ∧
      (submitGuess demoWords demoStart (toChars "ab!")).status = Status.InProgress ∧
      (submitGuess demoWords demoStart (toChars "ab!")).message = wrongLengthMsg :=
  reject_preserves_state demoWords demoStart (toChars "ab!") wrongLengthMsg
    (by decide) (by decide)

/-- C6 (amended): once the status is terminal the entry widget is disabled,
so a submission is a silent no-op: the state — rows, attempt index, secret,
status, and even the message label — is completely unchanged, and no
GameAlreadyOver (nor any other) error is surfaced. -/
theorem submit_after_terminal_noop (ws : List PyStr) (st : GameState) (raw : PyStr)
    (h : st.status ≠ Status.InProgress) :
    submitGuess ws st raw = st := by
  simp [submitGuess, h]

/-- C6 witness: submitting "crane" in a reachable Won state is the identity. -/
theorem submit_after_terminal_noop_witness :
    submitGuess demoWords demoWon (toChars "crane") = demoWon :=
  submit_after_terminal_noop demoWords demoWon (toChars "crane") (by decide)

/-- C6 counterexample: in the reachable Lost state, submitting "crane"
returns the state identically — in particular the message label still holds
the loss message, so no GameAlreadyOver error is yielded anywhere, refuting
the claim that the submit operation yields such an error. -/
theorem submit_after_terminal_counterexample :
    submitGuess demoWords demoLost (toChars "crane") = demoLost ∧
      demoLost.message = loseMsg (toChars "apple") := by
  decide

/-- C8 counterexample: the raw input "apple " (trailing space) lowercases
and trims to the dictionary word "apple", yet `_submit_guess` — which
lowercases but never trims — rejects it with the wrong-length message and
appends no row; so acceptance is not independent of surrounding whitespace. -/
theorem no_trim_counterexample :
    strStrip (strLower (toChars "apple ")) = toChars "apple" ∧
      toChars "apple" ∈ demoWords ∧
      submitGuess demoWords demoStart (toChars "apple ") =
        { demoStart with message := wrongLengthMsg } := by
  decide

/-- C8 (amended): `_submit_guess` normalizes only the case of the raw input
(it lowercases, it does not trim) before any validation check, so a raw
input whose lowercased form is a length-5 alphabetic word of the word set is
accepted — its row is appended — regardless of letter case. -/
theorem lowercase_normalization (ws : List PyStr) (st : GameState) (raw : PyStr)
    (h1 : st.status = Status.InProgress)
    (h2 : (strLower raw).length = GRID_COLS)
    (h3 : strIsAlpha (strLower raw) = true)
    (h4 : strLower raw ∈ ws) :
    (submitGuess ws st raw).rows =
      st.rows ++ [(strLower raw, feedback st.secret (strLower raw))] := by
  have hv : validateGuess ws (strLower raw) = none := by
    simp [validateGuess, h2, h3, h4]
  simp only [submitGuess, if_pos h1, hv]
  by_cases hw : strLower raw = st.secret
  · simp [hw]
  · simp only [if_neg hw]
    split <;> simp

/-- C8 witness: the uppercase raw input "APPLE" is accepted in a fresh
session and its row is appended. -/
theorem lowercase_normalization_witness :
    (submitGuess demoWords demoStart (toChars "APPLE")).rows =
      demoStart.rows ++
        [(strLower (toChars "APPLE"),
          feedback demoStart.secret (strLower (toChars "APPLE")))] :=
  lowercase_normalization demoWords demoStart (toChars "APPLE")
    (by decide) (by decide) (by decide) (by decide)

theorem submit_secret_wins (ws : List PyStr) (st : GameState) (raw : PyStr)
    (h1 : st.status = Status.InProgress)
    (h2 : validateGuess ws (strLower raw) = none)
    (h3 : strLower raw = st.secret) :
    (submitGuess ws st raw).status = Status.Won ∧
      (submitGuess ws st raw).currentRow = st.currentRow := by
  simp only [submitGuess, if_pos h1, h2]
  simp [h3]

/-- C5: while the session is in progress, an accepted guess equal to the
secret transitions the status to Won immediately, at any attempt number from
1 to `GRID_ROWS`: the win check runs before `current_row` is incremented and
before the out-of-attempts check, so the attempt index is not advanced and
the win fires even on the last attempt. -/
theorem win_any_attempt (ws : List PyStr) (st : GameState) (raw : PyStr)
    (h1 : st.status = Status.InProgress)
    (_hrow : st.currentRow < GRID_ROWS)
    (h2 : validateGuess ws (strLower raw) = none)
    (h3 : strLower raw = st.secret) :
    (submitGuess ws st raw).status = Status.Won ∧
      (submitGuess ws st raw).currentRow = st.currentRow :=
  submit_secret_wins ws st raw h1 h2 h3

/-- C5 witness: guessing the secret on the sixth (last) attempt, after five
non-winning guesses, still wins: the win check precedes the loss check. -/
theorem win_any_attempt_witness :
    (submitGuess demoWords demoFive (toChars "apple")).status = Status.Won ∧
      (submitGuess demoWords demoFive (toChars "apple")).currentRow =
        demoFive.currentRow :=
  win_any_attempt demoWords demoFive (toChars "apple")
    (by decide) (by decide) (by decide) (by decide)

theorem submit_step_nonwin (ws : List PyStr) (st : GameState) (g : PyStr)
    (h1 : st.status = Status.InProgress)
    (h2 : validateGuess ws (strLower g) = none)
    (h3 : strLower g ≠ st.secret) :
    (submitGuess ws st g).currentRow = st.currentRow + 1 ∧
      (submitGuess ws st g).secret = st.secret ∧
      (submitGuess ws st g).status =
        (if GRID_ROWS ≤ st.currentRow + 1 then Status.Lost else Status.InProgress) := by
  simp only [submitGuess, if_pos h1, h2, if_neg h3]
  split <;> simp [h1]

theorem play_nonwinning (ws : List PyStr) (gs : List PyStr) :
    ∀ st : GameState, st.status = Status.InProgress →
      st.currentRow < GRID_ROWS →
      st.currentRow + gs.length ≤ GRID_ROWS →
      (∀ g ∈ gs, validateGuess ws (strLower g) = none ∧ strLower g ≠ st.secret) →
      (playGuesses ws st gs).currentRow = st.currentRow + gs.length ∧
        (playGuesses ws st gs).secret = st.secret ∧
        (playGuesses ws st gs).status =
          (if GRID_ROWS ≤ st.currentRow + gs.length then Status.Lost
           else Status.InProgress) := by
  induction gs with
  | nil =>
    intro st h1 hrow _ _
    simp only [playGuesses, List.length_nil, Nat.add_zero]
    refine ⟨trivial, trivial, ?_⟩
    rw [if_neg (by omega)]
    exact h1
  | cons g rest ih =>
    intro st h1 hrow hbound hok
    have hg := hok g (List.mem_cons_self g rest)
    have hstep := submit_step_nonwin ws st g h1 hg.1 hg.2
    simp only [List.length_cons] at hbound ⊢
    simp only [playGuesses]
    by_cases hlast : GRID_ROWS ≤ st.currentRow + 1
    · have hrest : rest = [] := List.length_eq_zero.mp (by omega)
      subst hrest
      simp only [playGuesses, List.length_nil, Nat.zero_add]
      exact hstep
    · have hstatus : (submitGuess ws st g).status = Status.InProgress := by
        rw [hstep.2.2, if_neg hlast]
      have hrec := ih (submitGuess ws st g) hstatus
        (by rw [hstep.1]; omega) (by rw [hstep.1]; omega)
        (fun x hx => by rw [hstep.2.1]; exact hok x (List.mem_cons_of_mem g hx))
      refine ⟨?_, ?_, ?_⟩
      · rw [hrec.1, hstep.1]
        omega
      · rw [hrec.2.1, hstep.2.1]
      · rw [hrec.2.2, hstep.1]
        by_cases hend : GRID_ROWS ≤ st.currentRow + (rest.length + 1)
        · rw [if_pos (by omega), if_pos hend]
        · rw [if_neg (by omega), if_neg hend]

/-- C4: starting from a fresh session, six accepted guesses none of which
equals the secret drive the status to Lost exactly on the sixth; after any
shorter prefix of k < 6 such guesses the status is still InProgress, and
each accepted non-winning guess advances `current_row` by exactly one (it
equals the number of guesses processed). -/
theorem lost_exactly_on_last_attempt (ws : List PyStr) (st : GameState)
    (gs : List PyStr) (h1 : st.status = Status.InProgress)
    (h0 : st.currentRow = 0) (hn : gs.length = GRID_ROWS)
    (hok : ∀ g ∈ gs, validateGuess ws (strLower g) = none ∧ strLower g ≠ st.secret) :
    (playGuesses ws st gs).status = Status.Lost ∧
      (playGuesses ws st gs).currentRow = GRID_ROWS ∧
      ∀ k, k < GRID_ROWS →
        (playGuesses ws st (gs.take k)).status = Status.InProgress ∧
          (playGuesses ws st (gs.take k)).currentRow = k := by
  have hfull := play_nonwinning ws gs st h1 (by rw [h0]; decide)
    (by rw [h0, hn]; omega) hok
  refine ⟨?_, ?_, ?_⟩
  · rw [hfull.2.2, if_pos (by rw [h0, hn]; omega)]
  · rw [hfull.1, h0, hn]
    omega
  · intro k hk
    have hlen : (gs.take k).length = k := by
      rw [List.length_take, hn]
      omega
    have hpre := play_nonwinning ws (gs.take k) st h1 (by rw [h0]; decide)
      (by rw [h0, hlen]; omega)
      (fun g hg => hok g (List.take_subset k gs hg))
    refine ⟨?_, ?_⟩
    · rw [hpre.2.2, hlen, if_neg (by omega)]
    · rw [hpre.1, hlen, h0]
      omega

/-- C4 witness: the six demo guesses, none equal to the secret "apple",
lose exactly on the sixth: the full play is Lost with `current_row` 6,
while the five-guess prefix is still InProgress with `current_row` 5. -/
theorem lost_exactly_on_last_attempt_witness :
    (playGuesses demoWords demoStart demoSixGuesses).status = Status.Lost ∧
      (playGuesses demoWords demoStart demoSixGuesses).currentRow = GRID_ROWS ∧
      (playGuesses demoWords demoStart (demoSixGuesses.take 5)).status =
        Status.InProgress ∧
      (playGuesses demoWords demoStart (demoSixGuesses.take 5)).currentRow = 5 := by
  have h := lost_exactly_on_last_attempt demoWords demoStart demoSixGuesses
    (by decide) (by decide) (by decide) (by decide)
  exact ⟨h.1, h.2.1, (h.2.2 5 (by decide)).1, (h.2.2 5 (by decide)).2⟩

theorem pyToLower_isLower (c : Nat) (h : pyIsAlpha c = true) :
    pyIsLower (pyToLower c) = true := by
  simp only [pyIsAlpha, pyIsUpper, pyIsLower, Bool.or_eq_true, Bool.and_eq_true,
    decide_eq_true_eq] at h
  simp only [pyToLower, pyIsUpper, pyIsLower, Bool.and_eq_true, decide_eq_true_eq]
  split
  · rename_i hc
    omega
  · rename_i hc
    omega

theorem pyToLower_of_isLower (c : Nat) (h : pyIsLower c = true) :
    pyToLower c = c := by
  simp only [pyIsLower, Bool.and_eq_true, decide_eq_true_eq] at h
  simp only [pyToLower, pyIsUpper, Bool.and_eq_true, decide_eq_true_eq]
  rw [if_neg (by omega)]

theorem isLower_isAlpha (c : Nat) (h : pyIsLower c = true) :
    pyIsAlpha c = true := by
  simp [pyIsAlpha, h]

theorem load_words_shape (top : List PyStr) (zipf : PyStr → ℚ) :
    ∀ v ∈ load_words top zipf,
      v.length = 5 ∧ (∀ c ∈ v, pyIsLower c = true) ∧
        ∃ w, w ∈ top ∧ v = strLower w ∧ w.length = 5 ∧ strIsAlpha w = true ∧
          MIN_ZIPF ≤ zipf w := by
  intro v hv
  simp only [load_words, List.mem_map, List.mem_filter] at hv
  obtain ⟨w, ⟨hw_mem, hw_cond⟩, hw_eq⟩ := hv
  simp only [Bool.and_eq_true, decide_eq_true_eq] at hw_cond
  obtain ⟨⟨hw_len, hw_alpha⟩, hw_zipf⟩ := hw_cond
  subst hw_eq
  refine ⟨?_, ?_, w, hw_mem, rfl, hw_len, hw_alpha, hw_zipf⟩
  · rw [strLower, List.length_map, hw_len]
  · intro c hc
    rw [strLower] at hc
    obtain ⟨c0, hc0_mem, hc0_eq⟩ := List.mem_map.mp hc
    have hc0_alpha : pyIsAlpha c0 = true := by
      have := (Bool.and_eq_true _ _).mp hw_alpha
      exact List.all_eq_true.mp this.2 c0 hc0_mem
    rw [← hc0_eq]
    exact pyToLower_isLower c0 hc0_alpha

/-- C9: every word of the accepted word set built by `load_words` is
lowercase, has length exactly 5, consists only of alphabetic characters,
and has Zipf frequency at least `MIN_ZIPF`.  The external `zipf_frequency`
is modelled as an arbitrary function that is invariant under lowercasing
(hypothesis `hz`), which holds of wordfreq because it case-folds its input;
the filter tests the corpus word before lowercasing it. -/
theorem load_words_sound (top : List PyStr) (zipf : PyStr → ℚ)
    (hz : ∀ w, zipf (strLower w) = zipf w) :
    ∀ v ∈ load_words top zipf,
      v.length = 5 ∧ (∀ c ∈ v, pyIsAlpha c = true) ∧
        (∀ c ∈ v, pyIsLower c = true) ∧ MIN_ZIPF ≤ zipf v := by
  intro v hv
  obtain ⟨hlen, hlow, w, _, hv_eq, _, _, hw_zipf⟩ := load_words_shape top zipf v hv
  refine ⟨hlen, fun c hc => isLower_isAlpha c (hlow c hc), hlow, ?_⟩
  rw [hv_eq, hz w]
  exact hw_zipf

/-- C9 witness: with the demo corpus and the constant Zipf function, the
accepted word "apple" has length 5 and frequency at least the threshold. -/
theorem load_words_sound_witness :
    (toChars "apple").length = 5 ∧ MIN_ZIPF ≤ demoZipf (toChars "apple") := by
  have h := load_words_sound demoTop demoZipf (fun w => rfl) (toChars "apple") (by decide)
  exact ⟨h.1, h.2.2.2⟩

theorem strLower_of_lower (s : PyStr) (h : ∀ c ∈ s, pyIsLower c = true) :
    strLower s = s := by
  induction s with
  | nil => rfl
  | cons c t ih =>
    rw [strLower, List.map_cons]
    rw [strLower] at ih
    rw [ih (fun x hx => h x (List.mem_cons_of_mem c hx))]
    rw [pyToLower_of_isLower c (h c (List.mem_cons_self c t))]

/-- C10: the secret picked by `_start_game` is an element of the word list,
hence of the `word_set` used for validation; it passes the entire validation
chain (so it is never rejected as an unknown word), and submitting it wins
the fresh session: every game is winnable. -/
theorem secret_in_dictionary (top : List PyStr) (zipf : PyStr → ℚ) (i : Nat)
    (hi : i < (load_words top zipf).length) :
    (startGame (load_words top zipf) i).secret ∈ load_words top zipf ∧
      validateGuess (load_words top zipf)
          (strLower (startGame (load_words top zipf) i).secret) = none ∧
      (submitGuess (load_words top zipf) (startGame (load_words top zipf) i)
          ((startGame (load_words top zipf) i).secret)).status = Status.Won := by
  have hsecret : (startGame (load_words top zipf) i).secret
      = (load_words top zipf).get ⟨i, hi⟩ := by
    show (load_words top zipf).getD i [] = _
    rw [List.getD_eq_getElem _ _ hi]
    rfl
  have hmem : (startGame (load_words top zipf) i).secret ∈ load_words top zipf := by
    rw [hsecret]
    exact List.get_mem _ i hi
  obtain ⟨hlen, hlow, _⟩ := load_words_shape top zipf _ hmem
  have hfix : strLower (startGame (load_words top zipf) i).secret
      = (startGame (load_words top zipf) i).secret := strLower_of_lower _ hlow
  have halpha : strIsAlpha (startGame (load_words top zipf) i).secret = true := by
    rw [strIsAlpha, Bool.and_eq_true]
    constructor
    · cases hsec : (startGame (load_words top zipf) i).secret with
      | nil => rw [hsec] at hlen; simp at hlen
      | cons a t => simp
    · rw [List.all_eq_true]
      exact fun c hc => isLower_isAlpha c (hlow c hc)
  have hvalid : validateGuess (load_words top zipf)
      (strLower (startGame (load_words top zipf) i).secret) = none := by
    rw [hfix]
    simp [validateGuess, hlen, GRID_COLS, halpha, hmem]
  refine ⟨hmem, hvalid, ?_⟩
  exact (submit_secret_wins _ _ _ rfl hvalid hfix).1

/-- C10 witness: with the demo corpus, the session started at index 0 has
secret "apple", which is in the word set, validates, and wins when
submitted. -/
theorem secret_in_dictionary_witness :
    (startGame (load_words demoTop demoZipf) 0).secret ∈ load_words demoTop demoZipf ∧
      validateGuess (load_words demoTop demoZipf)
          (strLower (startGame (load_words demoTop demoZipf) 0).secret) = none ∧
      (submitGuess (load_words demoTop demoZipf) (startGame (load_words demoTop demoZipf) 0)
          ((startGame (load_words demoTop demoZipf) 0).secret)).status = Status.Won :=
  secret_in_dictionary demoTop demoZipf 0 (by decide)

end Wordle
